import Mathlib

/-!
# Verification of the Nuzlocke timeline script

A shallow embedding of the collapse-state store, timeline rendering,
permalink resolution and run-selection logic of `src/script.js`, together
with theorems settling the specification claims about it.

Conventions of the embedding:
* JavaScript numbers that the script manipulates are integers (episode
  numbers, levels); they are modelled as `Int`.  `NaN` is kept as an
  explicit value of `JsNum` because `Number(x)` coercions can produce it.
* `localStorage` is modelled as a partial map from keys to stored cells.
  A stored cell is either a string that parses as JSON (kept as the parsed
  `Json` value) or a string that does not (`Cell.bad`), which makes
  `JSON.parse` throw.
* DOM episode sections are modelled as an ordered list of
  `(episode number, aria-expanded)` pairs; scrolling, heights and CSS
  classes are presentation-only and carry no state that any claim
  mentions.
-/

namespace NuzTimeline

/-! ## JavaScript value model -/

/-- A JavaScript number as this script uses them: an integer or `NaN`. -/
inductive JsNum where
  | nan : JsNum
  | int : Int → JsNum
deriving DecidableEq, Repr

/-- A parsed JSON value.  The script only ever stores integer numbers, so
numbers are modelled as `Int`. -/
inductive Json where
  | null : Json
  | bool : Bool → Json
  | num : Int → Json
  | str : String → Json
  | arr : List Json → Json
deriving Repr

/-- `Number(s)` on a string: trimmed empty string is `0`, an optionally
signed digit string is that integer, anything else is `NaN` (the script
never stores fractional or exponent literals). -/
def jsNumberOfString (s : String) : JsNum :=
  let t := (s.data.dropWhile Char.isWhitespace).reverse.dropWhile Char.isWhitespace |>.reverse
  match t with
  | [] => JsNum.int 0
  | c :: rest =>
    if c = '-' then
      if rest ≠ [] ∧ rest.all Char.isDigit then
        JsNum.int (-(rest.foldl (fun n d => n * 10 + (d.toNat - 48)) 0 : Nat))
      else JsNum.nan
    else if c = '+' then
      if rest ≠ [] ∧ rest.all Char.isDigit then
        JsNum.int (rest.foldl (fun n d => n * 10 + (d.toNat - 48)) 0 : Nat)
      else JsNum.nan
    else if t.all Char.isDigit then
      JsNum.int (t.foldl (fun n d => n * 10 + (d.toNat - 48)) 0 : Nat)
    else JsNum.nan

/-- `Number(x)` coercion on a JSON value.  Arrays other than `[]` coerce
through their string form in JavaScript; the script never stores nested
arrays, and they are modelled as `NaN`. -/
def jsNumber : Json → JsNum
  | Json.null => JsNum.int 0
  | Json.bool b => JsNum.int (if b then 1 else 0)
  | Json.num n => JsNum.int n
  | Json.str s => jsNumberOfString s
  | Json.arr [] => JsNum.int 0
  | Json.arr (_ :: _) => JsNum.nan

/-- `JSON.stringify` of a number: `NaN` serialises as `null`. -/
def jsNumToJson : JsNum → Json
  | JsNum.int n => Json.num n
  | JsNum.nan => Json.null

/-! ## JavaScript `Set` model

A `Set` keeps insertion order and never holds duplicates; it is modelled
as a duplicate-free list. -/

abbrev JsSet := List JsNum

def jsSetAdd (s : JsSet) (x : JsNum) : JsSet :=
  if x ∈ s then s else s ++ [x]

def jsSetDelete (s : JsSet) (x : JsNum) : JsSet :=
  s.filter (fun y => y ≠ x)

def jsSetHas (s : JsSet) (x : JsNum) : Bool :=
  decide (x ∈ s)

/-- `new Set(arr)`: add the elements in order, dropping duplicates. -/
def jsSetOfArray (l : List JsNum) : JsSet :=
  l.foldl jsSetAdd []

/-! ## localStorage model -/

/-- One stored string: either it parses as JSON (`ok`) or `JSON.parse`
throws on it (`bad`). -/
inductive Cell where
  | ok : Json → Cell
  | bad : Cell

/-- `localStorage`: a partial map from keys to stored cells. -/
def Store := String → Option Cell

/-- The namespaced key `COLLAPSED_KEY_PREFIX + runId` used by the
collapsed-state store (`nuz_timeline_collapsed:` is the configured
prefix constant). -/
def collapsedKey (runId : String) : String :=
  "nuz_timeline_collapsed:" ++ runId

/-- `loadCollapsedMap(runId)` of `src/script.js`: read the namespaced key;
a missing or empty raw string, a parse failure, or a non-array parse all
yield the empty set; otherwise build a `Set` of the `Number`-coerced
elements. -/
def loadCollapsedMap (st : Store) (runId : String) : JsSet :=
  match st (collapsedKey runId) with
  | none => []
  | some Cell.bad => []
  | some (Cell.ok j) =>
    match j with
    | Json.arr xs => jsSetOfArray (xs.map jsNumber)
    | _ => []

/-- `saveCollapsedMap(runId, set)`: store the JSON array of the set's
elements under the namespaced key. -/
def saveCollapsedMap (st : Store) (runId : String) (s : JsSet) : Store :=
  fun k => if k = collapsedKey runId then some (Cell.ok (Json.arr (s.map jsNumToJson))) else st k

/-! ## Set and storage lemmas -/

theorem jsSetAdd_nodup {s : JsSet} (h : s.Nodup) (x : JsNum) : (jsSetAdd s x).Nodup := by
  unfold jsSetAdd
  split
  · exact h
  · next hx => simpa [List.nodup_append] using ⟨h, hx⟩

theorem mem_jsSetAdd {s : JsSet} {x y : JsNum} : y ∈ jsSetAdd s x ↔ y ∈ s ∨ y = x := by
  unfold jsSetAdd
  split
  · next hx => constructor
               · exact Or.inl
               · rintro (h | rfl)
                 · exact h
                 · exact hx
  · simp

theorem mem_jsSetDelete {s : JsSet} {x y : JsNum} :
    y ∈ jsSetDelete s x ↔ y ∈ s ∧ y ≠ x := by
  unfold jsSetDelete
  simp

theorem jsSetDelete_nodup {s : JsSet} (h : s.Nodup) (x : JsNum) :
    (jsSetDelete s x).Nodup :=
  h.filter _

theorem jsSetOfArray_go_nodup (l : List JsNum) (acc : JsSet) (h : acc.Nodup) :
    (l.foldl jsSetAdd acc).Nodup := by
  induction l generalizing acc with
  | nil => exact h
  | cons x xs ih => exact ih _ (jsSetAdd_nodup h x)

theorem jsSetOfArray_nodup (l : List JsNum) : (jsSetOfArray l).Nodup :=
  jsSetOfArray_go_nodup l [] List.nodup_nil

theorem mem_jsSetOfArray_go (l : List JsNum) (acc : JsSet) (y : JsNum) :
    y ∈ l.foldl jsSetAdd acc ↔ y ∈ acc ∨ y ∈ l := by
  induction l generalizing acc with
  | nil => simp
  | cons x xs ih =>
    simp only [List.foldl_cons, ih, mem_jsSetAdd, List.mem_cons]
    tauto

theorem mem_jsSetOfArray (l : List JsNum) (y : JsNum) :
    y ∈ jsSetOfArray l ↔ y ∈ l := by
  simpa using mem_jsSetOfArray_go l [] y

theorem jsSetOfArray_go_eq_append (l : List JsNum) (acc : JsSet)
    (hdisj : ∀ x ∈ l, x ∉ acc) (h : l.Nodup) :
    l.foldl jsSetAdd acc = acc ++ l := by
  induction l generalizing acc with
  | nil => simp
  | cons x xs ih =>
    have hx : x ∉ acc := hdisj x (List.mem_cons_self _ _)
    have : jsSetAdd acc x = acc ++ [x] := by simp [jsSetAdd, hx]
    rw [List.foldl_cons, this, ih (acc ++ [x])]
    · simp
    · intro z hz
      simp only [List.mem_append, List.mem_singleton]
      rintro (hzacc | rfl)
      · exact hdisj z (List.mem_cons_of_mem _ hz) hzacc
      · exact (List.nodup_cons.mp h).1 hz
    · exact (List.nodup_cons.mp h).2

theorem jsSetOfArray_eq_self {s : JsSet} (h : s.Nodup) : jsSetOfArray s = s := by
  simpa using jsSetOfArray_go_eq_append s [] (by simp) h

theorem loadCollapsedMap_nodup (st : Store) (runId : String) :
    (loadCollapsedMap st runId).Nodup := by
  unfold loadCollapsedMap
  split
  · exact List.nodup_nil
  · exact List.nodup_nil
  · split
    · exact jsSetOfArray_nodup _
    · exact List.nodup_nil

/-- Saving a duplicate-free set of (non-`NaN`) numbers and loading it back
is the identity: the JSON round trip with `Number` re-coercion preserves
every integer element. -/
theorem load_save_roundtrip (st : Store) (runId : String) (s : JsSet)
    (hnodup : s.Nodup) (hnan : JsNum.nan ∉ s) :
    loadCollapsedMap (saveCollapsedMap st runId s) runId = s := by
  have hmap : (s.map jsNumToJson).map jsNumber = s := by
    rw [List.map_map]
    conv_rhs => rw [show s = s.map id from (List.map_id s).symm]
    apply List.map_congr_left
    intro x hx
    cases x with
    | nan => exact absurd hx hnan
    | int n => rfl
  unfold loadCollapsedMap saveCollapsedMap
  simp [hmap, jsSetOfArray_eq_self hnodup]

/-! ## Species / badge filename normalization (`speciesToFilename`) -/

/-- `s.toLowerCase()` (ASCII; the sprite names the script handles are
ASCII). -/
def jsToLowerCase (s : String) : String :=
  String.mk (s.data.map Char.toLower)

/-- `s.trim()`: strip leading and trailing whitespace. -/
def jsTrim (s : String) : String :=
  String.mk (((s.data.dropWhile Char.isWhitespace).reverse.dropWhile Char.isWhitespace).reverse)

/-- `.replace(/['’]/g, "")`: remove both apostrophe characters. -/
def stripApostrophes (l : List Char) : List Char :=
  l.filter (fun c => !(c == '\'' || c == '’'))

/-- `.replace(/\s+/g, "-")`: each run of whitespace becomes one hyphen.
The flag records whether the previous character was inside a whitespace
run. -/
def collapseWsToHyphen : Bool → List Char → List Char
  | _, [] => []
  | inRun, c :: cs =>
    if c.isWhitespace then
      if inRun then collapseWsToHyphen true cs
      else '-' :: collapseWsToHyphen true cs
    else c :: collapseWsToHyphen false cs

/-- `.replace(/[^a-z0-9\-]/g, "")`: keep only lowercase letters, digits
and hyphens. -/
def keepAllowed (l : List Char) : List Char :=
  l.filter (fun c => ('a' ≤ c && c ≤ 'z') || ('0' ≤ c && c ≤ '9') || c == '-')

/-- `speciesToFilename(name)` of `src/script.js`: `null` for falsy input
(absent or empty string), otherwise lower-case, trim, strip apostrophes,
collapse whitespace runs to single hyphens, and drop every character
outside `[a-z0-9-]`. -/
def speciesToFilename (name : Option String) : Option String :=
  match name with
  | none => none
  | some s =>
    if s = "" then none
    else some (String.mk (keepAllowed (collapseWsToHyphen false
      (stripApostrophes (jsTrim (jsToLowerCase s)).data))))

/-- `spriteUrlFor(species)`: no URL when the normalized filename is falsy
(absent or empty). -/
def spriteUrlFor (species : Option String) : Option String :=
  match speciesToFilename species with
  | none => none
  | some f => if f = "" then none else some ("sprites/" ++ f ++ ".png")

/-- `badgeUrlFor(name)`: same with the badges path. -/
def badgeUrlFor (name : Option String) : Option String :=
  match speciesToFilename name with
  | none => none
  | some f => if f = "" then none else some ("sprites/badges/" ++ f ++ ".png")

/-! ## Event records -/

/-- The `flags` sub-object some variants attach to events. -/
structure Flags where
  failed : Option Bool := none
  illegal : Option Bool := none
deriving DecidableEq, Repr

/-- The nested `pokemon` object of an event, restricted to the fields the
claims reference. -/
structure Pokemon where
  species : Option String := none
  nickname : Option String := none
  level : Option Int := none
  gender : Option String := none
  failed : Option Bool := none
  illegal : Option Bool := none
deriving DecidableEq, Repr

/-- An event record, restricted to the fields the claimed behaviour reads.
`special` holds the raw JSON value of the optional special flag. -/
structure Event where
  episode : Option Int := none
  timestamp : Option String := none
  type : Option String := none
  date : Option String := none
  notes : Option String := none
  side : Option String := none
  failed : Option Bool := none
  illegal : Option Bool := none
  failedEncounter : Option Bool := none
  illegalEncounter : Option Bool := none
  flags : Option Flags := none
  pokemon : Option Pokemon := none
  level : Option Int := none
  special : Option Json := none
deriving Repr

/-- `ev.episode ?? 0`. -/
def epOf (e : Event) : Int :=
  e.episode.getD 0

/-- `ev.timestamp || ""` (an absent or empty timestamp is the empty
string). -/
def tsOf (e : Event) : String :=
  match e.timestamp with
  | none => ""
  | some t => t

/-! ## Numeric-aware string comparison

`ta.localeCompare(tb, undefined, {numeric: true})` is modelled by
comparing the strings' alternating digit-run / non-digit-run token lists
lexicographically: digit runs compare by numeric value, non-digit runs by
character code, and a number token sorts before a text token. -/

/-- One comparison token: a digit run's value, or a non-digit character
run. -/
abbrev TsTok := Nat ⊕ₗ List Char

/-- Accumulate the token list of a string (tokens are built at the head,
in reverse). -/
def tsKeyStep (acc : List (Nat ⊕ List Char)) (c : Char) : List (Nat ⊕ List Char) :=
  if c.isDigit then
    match acc with
    | Sum.inl n :: rest => Sum.inl (n * 10 + (c.toNat - 48)) :: rest
    | _ => Sum.inl (c.toNat - 48) :: acc
  else
    match acc with
    | Sum.inr s :: rest => Sum.inr (s ++ [c]) :: rest
    | _ => Sum.inr [c] :: acc

/-- The comparison key of a timestamp string. -/
def tsKey (s : String) : List TsTok :=
  ((s.data.foldl tsKeyStep []).reverse).map toLex

/-- Numeric-aware string `≤`, the order `localeCompare` with
`numeric: true` induces. -/
def tsLE (s t : String) : Prop :=
  tsKey s ≤ tsKey t

/-! ## Sorting and grouping (`renderTimeline`, lines 560-579) -/

/-- The sort key of the comparator
`(a, b) => (a.episode ?? 0) - (b.episode ?? 0) or timestamp compare`:
episode first, then the numeric-aware timestamp key. -/
def evKey (e : Event) : Int ×ₗ List TsTok :=
  toLex (epOf e, tsKey (tsOf e))

/-- The (total, transitive) order the comparator passed to
`events.sort` realises. -/
def eventLE (a b : Event) : Prop :=
  evKey a ≤ evKey b

instance : DecidableRel eventLE := fun a b =>
  inferInstanceAs (Decidable (evKey a ≤ evKey b))

instance : IsTotal Event eventLE :=
  ⟨fun a b => le_total (evKey a) (evKey b)⟩

instance : IsTrans Event eventLE :=
  ⟨fun _ _ _ h₁ h₂ => le_trans h₁ h₂⟩

/-- `events.sort(comparator)` — a stable sort by the comparator. -/
def sortEvents (l : List Event) : List Event :=
  l.insertionSort eventLE

/-- One step of the `episodesMap` / `episodesOrder` loop: append the event
to its episode's group, or open a new group at the end (first-seen
order). -/
def insertGrouped (acc : List (Int × List Event)) (k : Int) (e : Event) :
    List (Int × List Event) :=
  match acc with
  | [] => [(k, [e])]
  | (k', g) :: rest =>
    if k' = k then (k', g ++ [e]) :: rest
    else (k', g) :: insertGrouped rest k e

/-- The grouping loop of `renderTimeline`: fold the events into episode
groups keyed by `ev.episode ?? 0`, preserving first-seen key order. -/
def groupByEpisode (l : List Event) : List (Int × List Event) :=
  l.foldl (fun acc e => insertGrouped acc (epOf e) e) []

/-- The episode sections `renderTimeline` builds: sort, then group. -/
def renderSections (l : List Event) : List (Int × List Event) :=
  groupByEpisode (sortEvents l)

/-! ## Order facts about the comparator -/

theorem epOf_le_of_eventLE {x e : Event} (h : eventLE x e) : epOf x ≤ epOf e := by
  rcases (Prod.Lex.le_iff (epOf x, tsKey (tsOf x)) (epOf e, tsKey (tsOf e))).mp h with
    h' | ⟨h', _⟩
  · exact le_of_lt h'
  · exact le_of_eq h'

theorem tsKey_le_of_eventLE {x e : Event} (h : eventLE x e) (he : epOf x = epOf e) :
    tsKey (tsOf x) ≤ tsKey (tsOf e) := by
  rcases (Prod.Lex.le_iff (epOf x, tsKey (tsOf x)) (epOf e, tsKey (tsOf e))).mp h with
    h' | ⟨_, h'⟩
  · exact absurd (he ▸ h') (lt_irrefl _)
  · exact h'

/-! ## Grouping invariants -/

/-- The invariant of the grouping accumulator: strictly increasing episode
keys, nonempty groups, every event filed under its own episode, groups
sorted by the comparator. -/
def GoodAcc (acc : List (Int × List Event)) : Prop :=
  List.Chain' (· < ·) (acc.map Prod.fst) ∧
  ∀ p ∈ acc, p.2 ≠ [] ∧ (∀ e ∈ p.2, epOf e = p.1) ∧ List.Sorted eventLE p.2

theorem goodAcc_nil : GoodAcc [] :=
  ⟨List.chain'_nil, by simp⟩

theorem insertGrouped_map_fst (acc : List (Int × List Event)) (k : Int) (e : Event) :
    (insertGrouped acc k e).map Prod.fst =
      if k ∈ acc.map Prod.fst then acc.map Prod.fst else acc.map Prod.fst ++ [k] := by
  induction acc with
  | nil => simp [insertGrouped]
  | cons p rest ih =>
    obtain ⟨k', g⟩ := p
    by_cases hk : k' = k
    · subst hk
      simp [insertGrouped]
    · simp only [insertGrouped, if_neg hk, List.map_cons, ih]
      have hiff : (k ∈ k' :: rest.map Prod.fst) ↔ (k ∈ rest.map Prod.fst) := by
        rw [List.mem_cons]
        constructor
        · rintro (h | h)
          · exact absurd h.symm hk
          · exact h
        · exact Or.inr
      by_cases hmem : k ∈ rest.map Prod.fst
      · rw [if_pos hmem, if_pos (hiff.mpr hmem)]
      · rw [if_neg hmem, if_neg (hiff.not.mpr hmem)]
        simp

theorem insertGrouped_flatMap_perm (acc : List (Int × List Event)) (k : Int) (e : Event) :
    ((insertGrouped acc k e).flatMap Prod.snd).Perm (acc.flatMap Prod.snd ++ [e]) := by
  induction acc with
  | nil => simp [insertGrouped]
  | cons p rest ih =>
    obtain ⟨k', g⟩ := p
    by_cases hk : k' = k
    · subst hk
      have hstep : insertGrouped ((k', g) :: rest) k' e = (k', g ++ [e]) :: rest := by
        simp [insertGrouped]
      rw [hstep, List.flatMap_cons, List.flatMap_cons]
      rw [show (g ++ [e]) ++ rest.flatMap Prod.snd = g ++ ([e] ++ rest.flatMap Prod.snd) by
        simp [List.append_assoc]]
      rw [show (g ++ rest.flatMap Prod.snd) ++ [e] = g ++ (rest.flatMap Prod.snd ++ [e]) by
        simp [List.append_assoc]]
      exact List.Perm.append_left g List.perm_append_comm
    · have hstep : insertGrouped ((k', g) :: rest) k e = (k', g) :: insertGrouped rest k e := by
        simp [insertGrouped, hk]
      rw [hstep, List.flatMap_cons, List.flatMap_cons]
      rw [show (g ++ rest.flatMap Prod.snd) ++ [e] = g ++ (rest.flatMap Prod.snd ++ [e]) by
        simp [List.append_assoc]]
      exact List.Perm.append_left g ih

theorem mem_of_getLast?_eq {α : Type _} {l : List α} {x : α} (h : x ∈ l.getLast?) : x ∈ l := by
  obtain ⟨hne, rfl⟩ := List.mem_getLast?_eq_getLast h
  exact List.getLast_mem hne

theorem insertGrouped_good (acc : List (Int × List Event)) (e : Event) :
    GoodAcc acc →
    (∀ p ∈ acc, ∀ x ∈ p.2, eventLE x e) →
    (∀ p ∈ acc, p.1 ≤ epOf e) →
    GoodAcc (insertGrouped acc (epOf e) e) := by
  induction acc with
  | nil =>
    intro _ _ _
    refine ⟨by simp [insertGrouped], ?_⟩
    intro p hp
    simp only [insertGrouped, List.mem_singleton] at hp
    subst hp
    exact ⟨by simp, by simp, List.sorted_singleton e⟩
  | cons q rest ih =>
    intro hacc hx keys_le
    obtain ⟨k', g⟩ := q
    by_cases hk : k' = epOf e
    · subst hk
      constructor
      · simpa [insertGrouped] using hacc.1
      · intro p hp
        have hstep : insertGrouped ((epOf e, g) :: rest) (epOf e) e =
            (epOf e, g ++ [e]) :: rest := by
          simp [insertGrouped]
        rw [hstep, List.mem_cons] at hp
        rcases hp with hp | hp
        · subst hp
          obtain ⟨hne, heps, hsort⟩ := hacc.2 (epOf e, g) (List.mem_cons_self _ _)
          refine ⟨by simp, ?_, ?_⟩
          · intro x hxg
            rcases List.mem_append.mp hxg with hxg | hxg
            · exact heps x hxg
            · simp only [List.mem_singleton] at hxg
              subst hxg
              rfl
          · show List.Sorted eventLE (g ++ [e])
            rw [List.Sorted, List.pairwise_append]
            refine ⟨hsort, List.sorted_singleton e, ?_⟩
            intro a ha b hb
            simp only [List.mem_singleton] at hb
            rw [hb]
            exact hx (epOf e, g) (List.mem_cons_self _ _) a ha
        · exact hacc.2 p (List.mem_cons_of_mem _ hp)
    · have hrest_good : GoodAcc rest :=
        ⟨(List.chain'_cons'.mp (by simpa using hacc.1)).2,
         fun p hp => hacc.2 p (List.mem_cons_of_mem _ hp)⟩
      have hrest_x : ∀ p ∈ rest, ∀ x ∈ p.2, eventLE x e :=
        fun p hp => hx p (List.mem_cons_of_mem _ hp)
      have hrest_keys : ∀ p ∈ rest, p.1 ≤ epOf e :=
        fun p hp => keys_le p (List.mem_cons_of_mem _ hp)
      have ihr := ih hrest_good hrest_x hrest_keys
      constructor
      · simp only [insertGrouped, if_neg hk, List.map_cons]
        rw [List.chain'_cons']
        refine ⟨?_, ihr.1⟩
        intro y hy
        rw [insertGrouped_map_fst] at hy
        by_cases hmem : epOf e ∈ rest.map Prod.fst
        · rw [if_pos hmem] at hy
          exact (List.chain'_cons'.mp (by simpa using hacc.1)).1 y hy
        · rw [if_neg hmem] at hy
          cases hrk : rest.map Prod.fst with
          | nil =>
            rw [hrk] at hy
            have hy' : epOf e = y := by simpa using hy
            exact hy' ▸ lt_of_le_of_ne (keys_le (k', g) (List.mem_cons_self _ _)) hk
          | cons k'' ks =>
            rw [hrk] at hy
            have hy' : k'' = y := by simpa using hy
            have h1 := (List.chain'_cons'.mp (by simpa using hacc.1)).1
            rw [hrk] at h1
            exact hy' ▸ h1 k'' (by simp)
      · intro p hp
        simp only [insertGrouped, if_neg hk, List.mem_cons] at hp
        rcases hp with rfl | hp
        · exact hacc.2 (k', g) (List.mem_cons_self _ _)
        · exact ihr.2 p hp

theorem foldl_insertGrouped_good :
    ∀ (l : List Event) (acc : List (Int × List Event)),
      l.Pairwise eventLE → GoodAcc acc →
      (∀ e ∈ l, ∀ p ∈ acc, ∀ x ∈ p.2, eventLE x e) →
      GoodAcc (l.foldl (fun acc e => insertGrouped acc (epOf e) e) acc)
  | [], _, _, hacc, _ => hacc
  | e :: t, acc, hpw, hacc, hx => by
    have hxe : ∀ p ∈ acc, ∀ x ∈ p.2, eventLE x e := hx e (List.mem_cons_self _ _)
    have keys_le : ∀ p ∈ acc, p.1 ≤ epOf e := by
      intro p hp
      obtain ⟨hne, heps, _⟩ := hacc.2 p hp
      obtain ⟨x, hxmem⟩ := List.exists_mem_of_ne_nil p.2 hne
      have h := epOf_le_of_eventLE (hxe p hp x hxmem)
      rw [heps x hxmem] at h
      exact h
    have hacc' := insertGrouped_good acc e hacc hxe keys_le
    have hhead := (List.pairwise_cons.mp hpw).1
    have hpw' := (List.pairwise_cons.mp hpw).2
    refine foldl_insertGrouped_good t _ hpw' hacc' ?_
    intro e' he' p hp x hxp
    have hxmem : x ∈ (insertGrouped acc (epOf e) e).flatMap Prod.snd :=
      List.mem_flatMap.mpr ⟨p, hp, hxp⟩
    have hx2 := (insertGrouped_flatMap_perm acc (epOf e) e).mem_iff.mp hxmem
    rcases List.mem_append.mp hx2 with hold | hnew
    · obtain ⟨q, hq, hxq⟩ := List.mem_flatMap.mp hold
      exact hx e' (List.mem_cons_of_mem _ he') q hq x hxq
    · simp only [List.mem_singleton] at hnew
      rw [hnew]
      exact hhead e' he'

theorem groupByEpisode_good (l : List Event) (hl : l.Pairwise eventLE) :
    GoodAcc (groupByEpisode l) :=
  foldl_insertGrouped_good l [] hl goodAcc_nil (by simp)

theorem foldl_insertGrouped_flatMap_perm :
    ∀ (l : List Event) (acc : List (Int × List Event)),
      ((l.foldl (fun acc e => insertGrouped acc (epOf e) e) acc).flatMap Prod.snd).Perm
        (acc.flatMap Prod.snd ++ l)
  | [], acc => by simp
  | e :: t, acc => by
    have ih := foldl_insertGrouped_flatMap_perm t (insertGrouped acc (epOf e) e)
    refine ih.trans ?_
    have h2 := (insertGrouped_flatMap_perm acc (epOf e) e).append_right t
    rw [List.append_assoc, List.singleton_append] at h2
    exact h2

theorem groupByEpisode_flatMap_perm (l : List Event) :
    ((groupByEpisode l).flatMap Prod.snd).Perm l := by
  simpa using foldl_insertGrouped_flatMap_perm l []

theorem renderSections_good (l : List Event) : GoodAcc (renderSections l) :=
  groupByEpisode_good _ (List.sorted_insertionSort eventLE l)

theorem renderSections_flatMap_perm (l : List Event) :
    ((renderSections l).flatMap Prod.snd).Perm l :=
  (groupByEpisode_flatMap_perm (sortEvents l)).trans (List.perm_insertionSort eventLE l)

/-- **C1**: for every list of event records, `renderTimeline` groups the
events into contiguous episode sections whose episode numbers are strictly
ascending (an event missing its `episode` field counts as episode `0`,
which is `epOf`'s definition), every event is filed in the section of its
own episode, within each section the timestamps (missing timestamp = `""`)
are ascending under the numeric-aware string comparison `tsLE`, and the
sections together contain exactly the input events — all regardless of
the input order. -/
theorem renderTimeline_sorts_and_groups (l : List Event) :
    List.Chain' (· < ·) ((renderSections l).map Prod.fst)
    ∧ (∀ p ∈ renderSections l, ∀ e ∈ p.2, epOf e = p.1)
    ∧ (∀ p ∈ renderSections l, (p.2.map tsOf).Chain' tsLE)
    ∧ ((renderSections l).flatMap Prod.snd).Perm l := by
  obtain ⟨hchain, hprops⟩ := renderSections_good l
  refine ⟨hchain, fun p hp => (hprops p hp).2.1, ?_, renderSections_flatMap_perm l⟩
  intro p hp
  obtain ⟨hne, heps, hsort⟩ := hprops p hp
  have hpw : p.2.Pairwise (fun a b => tsLE (tsOf a) (tsOf b)) := by
    refine hsort.imp_of_mem ?_
    intro a b ha hb hle
    exact tsKey_le_of_eventLE hle ((heps a ha).trans (heps b hb).symm)
  exact ((List.pairwise_map).mpr hpw).chain'

/-- Concrete instance of the C1 theorem: three events given out of order
land in ascending episode sections with ascending timestamps. -/
theorem renderTimeline_sorts_and_groups_witness :
    ((renderSections
        [({ episode := some 2, timestamp := some "10:05" } : Event),
         ({ episode := some 1, timestamp := some "9" } : Event),
         ({ episode := some 2, timestamp := some "9:30" } : Event)]).map Prod.fst = [1, 2])
    ∧ (∀ p ∈ renderSections
        [({ episode := some 2, timestamp := some "10:05" } : Event),
         ({ episode := some 1, timestamp := some "9" } : Event),
         ({ episode := some 2, timestamp := some "9:30" } : Event)],
        ∀ e ∈ p.2, epOf e = p.1) :=
  ⟨by decide,
   (renderTimeline_sorts_and_groups
      [({ episode := some 2, timestamp := some "10:05" } : Event),
       ({ episode := some 1, timestamp := some "9" } : Event),
       ({ episode := some 2, timestamp := some "9:30" } : Event)]).2.1⟩

/-! ## DOM + storage state, toggling (`toggleEpisodeSection`, `setAllCollapsed`) -/

/-- The rendered timeline plus browser storage.  `dom` lists the rendered
episode sections in document order as `(episode number, aria-expanded)`
pairs. -/
structure Ui where
  dom : List (Int × Bool)
  store : Store

/-- Update the first section carrying the given episode number (the
section `querySelector` returns). -/
def updateFirst (dom : List (Int × Bool)) (ep : Int) (b : Bool) : List (Int × Bool) :=
  match dom with
  | [] => []
  | (k, v) :: rest => if k = ep then (k, b) :: rest else (k, v) :: updateFirst rest ep b

/-- `toggleEpisodeSection(runId, episode, expand)` of `src/script.js`:
no-op when no section with that episode is rendered; otherwise flip (or
force) the section's expanded state, then load the persisted set, add the
episode on collapse / delete it on expand, and save. -/
def toggleEpisodeSection (ui : Ui) (runId : String) (episode : Int) (expand : Option Bool) :
    Ui :=
  match ui.dom.find? (fun p => p.1 == episode) with
  | none => ui
  | some sec =>
    let isExpanded := sec.2
    let willExpand := expand.getD (!isExpanded)
    let map0 := loadCollapsedMap ui.store runId
    let map1 := if willExpand then jsSetDelete map0 (JsNum.int episode)
                else jsSetAdd map0 (JsNum.int episode)
    { dom := updateFirst ui.dom episode willExpand
      store := saveCollapsedMap ui.store runId map1 }

/-- The body of the `sections.forEach` loop of `setAllCollapsed`, acting
on the loaded snapshot set. -/
def setAllSetStep (collapsed : Bool) (m : JsSet) (sec : Int × Bool) : JsSet :=
  if collapsed then jsSetAdd m (JsNum.int sec.1) else jsSetDelete m (JsNum.int sec.1)

/-- The body of the `sections.forEach` loop of `setAllCollapsed`: toggle
the section (forced) and add/delete its episode in the snapshot. -/
def setAllStep (runId : String) (collapsed : Bool) (acc : Ui × JsSet) (sec : Int × Bool) :
    Ui × JsSet :=
  (toggleEpisodeSection acc.1 runId sec.1 (some (!collapsed)),
   setAllSetStep collapsed acc.2 sec)

/-- `setAllCollapsed(runId, collapsed)` of `src/script.js`: load the set
once, then for every rendered section toggle it (forced) and add/delete
its episode in the loaded snapshot, and finally save the snapshot. -/
def setAllCollapsed (ui : Ui) (runId : String) (collapsed : Bool) : Ui :=
  let res := ui.dom.foldl (setAllStep runId collapsed) (ui, loadCollapsedMap ui.store runId)
  { dom := res.1.dom, store := saveCollapsedMap res.1.store runId res.2 }

/-! ## Rendering the timeline's storage effect (`renderTimeline`, lines 541-604)

The DOM construction is summarised by the `(episode, expanded)` section
list; the storage effect is the one-time default-collapse seeding. -/

/-- The storage and section-list effect of `renderTimeline(events)`:
empty input renders nothing and leaves storage alone; otherwise the
events are sorted and grouped; if the run's key has never been persisted
(`getItem` returns `null`) the last episode of the grouped order is added
to the loaded set and saved at once; each section is expanded iff its
episode is not in the (possibly seeded) set. -/
def renderTimelineState (events : List Event) (runId : String) (st : Store) :
    Store × List (Int × Bool) :=
  if events.isEmpty then (st, [])
  else
    let episodesOrder := (renderSections events).map Prod.fst
    let persisted0 := loadCollapsedMap st runId
    let hasPersisted := (st (collapsedKey runId)).isSome
    let seed := !hasPersisted && !episodesOrder.isEmpty
    let persisted :=
      if seed then jsSetAdd persisted0 (JsNum.int (episodesOrder.getLast?.getD 0))
      else persisted0
    let st' := if seed then saveCollapsedMap st runId persisted else st
    (st', episodesOrder.map (fun ep => (ep, !(jsSetHas persisted (JsNum.int ep)))))

/-! ## URL / permalink model (`parseHashAnchorAndParams`, `handlePermalinkOnLoad`) -/

/-- The parts of `window.location` the permalink code reads.  The page
query string is modelled as its parsed parameter list. -/
structure Location where
  search : List (String × String)
  hash : String

/-- `params.get(k)`: the value of the first entry with that name. -/
def paramsGet (ps : List (String × String)) (k : String) : Option String :=
  (ps.find? (fun p => p.1 == k)).map Prod.snd

/-- Drop every later entry with the given name. -/
def paramsDropLater (ps : List (String × String)) (k : String) : List (String × String) :=
  ps.filter (fun p => p.1 ≠ k)

/-- `params.set(k, v)`: replace the first entry with that name (removing
the others), or append. -/
def paramsSet : List (String × String) → String → String → List (String × String)
  | [], k, v => [(k, v)]
  | (k', v') :: rest, k, v =>
    if k' = k then (k, v) :: paramsDropLater rest k
    else (k', v') :: paramsSet rest k v

/-- Split a character list at the first occurrence of `c`
(`indexOf` + two `substring`s). -/
def splitAtFirst (c : Char) : List Char → Option (List Char × List Char)
  | [] => none
  | x :: xs =>
    if x = c then some ([], xs)
    else (splitAtFirst c xs).map (fun p => (x :: p.1, p.2))

/-- Split a query segment at its first `=` into name and value
(no `=` means empty value). -/
def querySeg (s : String) : String × String :=
  match splitAtFirst '=' s.data with
  | none => (s, "")
  | some (n, v) => (String.mk n, String.mk v)

/-- Split a character list on `&` into segments. -/
def splitOnAmp : List Char → List (List Char)
  | [] => [[]]
  | c :: cs =>
    if c = '&' then [] :: splitOnAmp cs
    else
      match splitOnAmp cs with
      | [] => [[c]]
      | seg :: rest => (c :: seg) :: rest

/-- `new URLSearchParams(qs)` on a raw query string: split on `&`,
skip empty segments, split each at its first `=` (percent-decoding is
not modelled; the permalinks the script builds contain none). -/
def parseQueryString (s : String) : List (String × String) :=
  ((splitOnAmp s.data).filter (fun seg => seg ≠ [])).map
    (fun seg => querySeg (String.mk seg))

/-- `.replace(/^#/, "")`. -/
def dropHashMark (s : String) : String :=
  match s.data with
  | '#' :: rest => String.mk rest
  | _ => s

/-- `parseHashAnchorAndParams()` of `src/script.js`: start from the page
query parameters; an empty hash gives no anchor; otherwise split the raw
hash at its first `?`, the front is the anchor and the back is parsed as
embedded parameters which override the page ones via `params.set`. -/
def parseHashAnchorAndParams (loc : Location) :
    Option String × List (String × String) :=
  let params := loc.search
  let rawHash := dropHashMark loc.hash
  if rawHash = "" then (none, params)
  else
    match splitAtFirst '?' rawHash.data with
    | none => (some rawHash, params)
    | some (front, back) =>
      (some (String.mk front),
       (parseQueryString (String.mk back)).foldl (fun ps p => paramsSet ps p.1 p.2) params)

/-- Strip a leading character sequence, or fail. -/
def stripPre : List Char → List Char → Option (List Char)
  | [], l => some l
  | _ :: _, [] => none
  | p :: ps, c :: cs => if c = p then stripPre ps cs else none

/-- The regex test `/^episode-(\d+)$/` with its `Number` capture: strip
the leading `episode-`, require a nonempty all-digit remainder, return
its value. -/
def parseEpisodeAnchor (anchor : String) : Option Int :=
  match stripPre "episode-".data anchor.data with
  | none => none
  | some ds =>
    if ds ≠ [] ∧ ds.all Char.isDigit then
      some (Int.ofNat (ds.foldl (fun n c => n * 10 + (c.toNat - 48)) 0))
    else none

/-- The query-string fallback at the end of `handlePermalinkOnLoad`: a
truthy `episode` page-query parameter whose `Number` is not `NaN` is
toggled, with direction forced by the page-query `spoiler` parameter. -/
def permalinkQueryFallback (loc : Location) (ui : Ui) (runId : String) : Ui :=
  match paramsGet loc.search "episode" with
  | none => ui
  | some epi =>
    if epi = "" then ui
    else
      match jsNumberOfString epi with
      | JsNum.nan => ui
      | JsNum.int ep =>
        toggleEpisodeSection ui runId ep
          (some (!(paramsGet loc.search "spoiler" == some "0")))

/-- `handlePermalinkOnLoad()` of `src/script.js`, minus the deferred
smooth scroll (pure presentation).  When the anchor fully matches
`episode-<digits>` (the `startsWith` guard is subsumed by the full regex;
both failure paths continue into the query fallback), the episode is
toggled with direction forced by `spoiler === "0"` on the merged
parameters. -/
def handlePermalinkOnLoad (loc : Location) (ui : Ui) (runId : String) : Ui :=
  match parseHashAnchorAndParams loc with
  | (some anchor, merged) =>
    match parseEpisodeAnchor anchor with
    | some ep =>
      toggleEpisodeSection ui runId ep
        (some (!(paramsGet merged "spoiler" == some "0")))
    | none => permalinkQueryFallback loc ui runId
  | (none, _) => permalinkQueryFallback loc ui runId

/-! ## Toggle lemmas -/

theorem find?_fst_eq {dom : List (Int × Bool)} {ep : Int} {sec : Int × Bool}
    (h : dom.find? (fun p => p.1 == ep) = some sec) : sec.1 = ep := by
  have := List.find?_some h
  simpa using this

theorem updateFirst_find? (dom : List (Int × Bool)) (ep : Int) (b : Bool)
    (h : ∃ sec, dom.find? (fun p => p.1 == ep) = some sec) :
    (updateFirst dom ep b).find? (fun p => p.1 == ep) = some (ep, b) := by
  induction dom with
  | nil => simp [List.find?] at h
  | cons q rest ih =>
    obtain ⟨k, v⟩ := q
    by_cases hk : k = ep
    · subst hk
      simp [updateFirst, List.find?]
    · have hpred : ((fun (p : Int × Bool) => p.1 == ep) (k, v)) = false := by
        simpa using hk
      rw [show updateFirst ((k, v) :: rest) ep b = (k, v) :: updateFirst rest ep b by
        simp [updateFirst, hk]]
      rw [List.find?_cons_of_neg _ (by simpa using hk)]
      refine ih ?_
      obtain ⟨sec, hsec⟩ := h
      rw [List.find?_cons_of_neg _ (by simpa using hk)] at hsec
      exact ⟨sec, hsec⟩

theorem toggle_unfold (ui : Ui) (runId : String) (ep : Int) (expand : Option Bool)
    (sec : Int × Bool) (hfind : ui.dom.find? (fun p => p.1 == ep) = some sec) :
    toggleEpisodeSection ui runId ep expand =
      { dom := updateFirst ui.dom ep (expand.getD (!sec.2)),
        store := saveCollapsedMap ui.store runId
          (if expand.getD (!sec.2) then
             jsSetDelete (loadCollapsedMap ui.store runId) (JsNum.int ep)
           else jsSetAdd (loadCollapsedMap ui.store runId) (JsNum.int ep)) } := by
  unfold toggleEpisodeSection
  rw [hfind]

theorem jsSetAdd_int_nanFree {s : JsSet} (h : JsNum.nan ∉ s) (n : Int) :
    JsNum.nan ∉ jsSetAdd s (JsNum.int n) := by
  intro hmem
  rcases mem_jsSetAdd.mp hmem with h1 | h1
  · exact h h1
  · cases h1

theorem jsSetDelete_nanFree {s : JsSet} (h : JsNum.nan ∉ s) (x : JsNum) :
    JsNum.nan ∉ jsSetDelete s x :=
  fun hm => h (mem_jsSetDelete.mp hm).1

/-- The set a forced (or free) toggle persists, given the section found. -/
def toggledSet (st : Store) (runId : String) (ep : Int) (w : Bool) : JsSet :=
  if w then jsSetDelete (loadCollapsedMap st runId) (JsNum.int ep)
  else jsSetAdd (loadCollapsedMap st runId) (JsNum.int ep)

theorem toggledSet_nodup (st : Store) (runId : String) (ep : Int) (w : Bool) :
    (toggledSet st runId ep w).Nodup := by
  unfold toggledSet
  split
  · exact jsSetDelete_nodup (loadCollapsedMap_nodup st runId) _
  · exact jsSetAdd_nodup (loadCollapsedMap_nodup st runId) _

theorem toggledSet_nanFree (st : Store) (runId : String) (ep : Int) (w : Bool)
    (hnan : JsNum.nan ∉ loadCollapsedMap st runId) :
    JsNum.nan ∉ toggledSet st runId ep w := by
  unfold toggledSet
  split
  · exact jsSetDelete_nanFree hnan _
  · exact jsSetAdd_int_nanFree hnan _

theorem int_not_mem_delete_add (M : JsSet) (ep : Int) :
    JsNum.int ep ∉ jsSetDelete (jsSetAdd M (JsNum.int ep)) (JsNum.int ep) :=
  fun h => (mem_jsSetDelete.mp h).2 rfl

theorem int_mem_add_delete (M : JsSet) (ep : Int) :
    JsNum.int ep ∈ jsSetAdd (jsSetDelete M (JsNum.int ep)) (JsNum.int ep) :=
  mem_jsSetAdd.mpr (Or.inr rfl)

theorem load_after_toggle (ui : Ui) (runId : String) (ep : Int) (expand : Option Bool)
    (sec : Int × Bool) (hfind : ui.dom.find? (fun p => p.1 == ep) = some sec)
    (hnan : JsNum.nan ∉ loadCollapsedMap ui.store runId) :
    loadCollapsedMap (toggleEpisodeSection ui runId ep expand).store runId =
      toggledSet ui.store runId ep (expand.getD (!sec.2)) := by
  rw [toggle_unfold ui runId ep expand sec hfind]
  exact load_save_roundtrip _ _ _ (toggledSet_nodup _ _ _ _) (toggledSet_nanFree _ _ _ _ hnan)

/-- **C3**: for a rendered episode section whose aria-expanded state agrees
with the persisted set (which every render and toggle establishes),
toggling that episode twice with no forced direction leaves the persisted
set's membership for that episode exactly as it was. -/
theorem toggle_twice_restores_membership (ui : Ui) (runId : String) (ep : Int)
    (sec : Int × Bool)
    (hfind : ui.dom.find? (fun p => p.1 == ep) = some sec)
    (hcons : (JsNum.int ep ∈ loadCollapsedMap ui.store runId) ↔ sec.2 = false)
    (hnan : JsNum.nan ∉ loadCollapsedMap ui.store runId) :
    (JsNum.int ep ∈
      loadCollapsedMap
        (toggleEpisodeSection (toggleEpisodeSection ui runId ep none) runId ep none).store
        runId)
    ↔ (JsNum.int ep ∈ loadCollapsedMap ui.store runId) := by
  set ui1 := toggleEpisodeSection ui runId ep none with hui1
  have hdom1 : ui1.dom = updateFirst ui.dom ep (!sec.2) := by
    rw [hui1, toggle_unfold ui runId ep none sec hfind]
    rfl
  have hfind1 : ui1.dom.find? (fun p => p.1 == ep) = some (ep, !sec.2) := by
    rw [hdom1]
    exact updateFirst_find? ui.dom ep (!sec.2) ⟨sec, hfind⟩
  have hload1 : loadCollapsedMap ui1.store runId = toggledSet ui.store runId ep (!sec.2) :=
    load_after_toggle ui runId ep none sec hfind hnan
  have hnan1 : JsNum.nan ∉ loadCollapsedMap ui1.store runId := by
    rw [hload1]
    exact toggledSet_nanFree _ _ _ _ hnan
  have hload2 :
      loadCollapsedMap (toggleEpisodeSection ui1 runId ep none).store runId =
        toggledSet ui1.store runId ep (!(!sec.2)) :=
    load_after_toggle ui1 runId ep none (ep, !sec.2) hfind1 hnan1
  rw [hload2]
  unfold toggledSet
  rw [hload1]
  unfold toggledSet
  cases hb : sec.2 with
  | true =>
    simp only [Bool.not_true, Bool.not_false, reduceIte]
    constructor
    · intro hmem
      exact absurd hmem (int_not_mem_delete_add _ _)
    · intro hmem
      have h2 := hcons.mp hmem
      rw [hb] at h2
      cases h2
  | false =>
    simp only [Bool.not_true, Bool.not_false, reduceIte]
    constructor
    · intro _
      exact hcons.mpr hb
    · intro _
      exact int_mem_add_delete _ _

/-- Concrete instance of the C3 theorem: with episode 1 rendered collapsed
and stored as `[1]`, a double toggle keeps `1` in the persisted set. -/
theorem toggle_twice_restores_membership_witness :
    (JsNum.int 1 ∈
      loadCollapsedMap
        (toggleEpisodeSection
          (toggleEpisodeSection
            ⟨[(1, false)],
             fun k => if k = collapsedKey "run-02" then some (Cell.ok (Json.arr [Json.num 1]))
                      else none⟩
            "run-02" 1 none)
          "run-02" 1 none).store
        "run-02")
    ↔ (JsNum.int 1 ∈
        loadCollapsedMap
          (fun k => if k = collapsedKey "run-02" then some (Cell.ok (Json.arr [Json.num 1]))
                    else none)
          "run-02") :=
  toggle_twice_restores_membership
    ⟨[(1, false)],
     fun k => if k = collapsedKey "run-02" then some (Cell.ok (Json.arr [Json.num 1]))
              else none⟩
    "run-02" 1 (1, false) (by decide) (by decide) (by decide)

/-! ## C2: default-collapse seeding -/

theorem chain'_lt_le_getLast :
    ∀ {ks : List Int}, List.Chain' (· < ·) ks →
      ∀ {m : Int}, ks.getLast? = some m → ∀ k ∈ ks, k ≤ m
  | [], _, m, hm => by simp at hm
  | [a], _, m, hm => by
      intro k hk
      simp only [List.getLast?_singleton, Option.some.injEq] at hm
      simp only [List.mem_singleton] at hk
      rw [hk, hm]
  | a :: b :: t, h, m, hm => by
      intro k hk
      have hch := List.chain'_cons.mp h
      have hm' : (b :: t).getLast? = some m := by rwa [List.getLast?_cons_cons] at hm
      rcases List.mem_cons.mp hk with hk' | hk'
      · rw [hk']
        exact le_of_lt (lt_of_lt_of_le hch.1
          (chain'_lt_le_getLast hch.2 hm' b (List.mem_cons_self _ _)))
      · exact chain'_lt_le_getLast hch.2 hm' k hk'

/-- Every input event's episode shows up as a section key, and every
section key is some input event's episode. -/
theorem renderSections_keys_cover (l : List Event) :
    ∀ e ∈ l, epOf e ∈ (renderSections l).map Prod.fst := by
  intro e he
  have hmem : e ∈ (renderSections l).flatMap Prod.snd :=
    (renderSections_flatMap_perm l).mem_iff.mpr he
  obtain ⟨p, hp, hep⟩ := List.mem_flatMap.mp hmem
  have heq := ((renderSections_good l).2 p hp).2.1 e hep
  exact List.mem_map.mpr ⟨p, hp, heq.symm⟩

/-- **C2**: rendering a non-empty event list when the run's collapse key
has never been persisted seeds the stored set with exactly the
highest-numbered episode of the list and saves it at once; when the key
is present — whatever it holds, including an empty list — the storage is
left untouched. -/
theorem render_seeds_default_collapse (events : List Event) (runId : String) (st : Store)
    (hne : events ≠ []) :
    (st (collapsedKey runId) = none →
      ∃ m : Int,
        loadCollapsedMap (renderTimelineState events runId st).1 runId = [JsNum.int m]
        ∧ (∃ e ∈ events, epOf e = m)
        ∧ (∀ e ∈ events, epOf e ≤ m))
    ∧ (∀ c, st (collapsedKey runId) = some c →
        (renderTimelineState events runId st).1 = st) := by
  have hempty : events.isEmpty = false := by
    cases events with
    | nil => exact absurd rfl hne
    | cons a t => rfl
  have hkeys_ne : (renderSections events).map Prod.fst ≠ [] := by
    intro hnil
    have hsec : renderSections events = [] := by
      cases hsec : renderSections events with
      | nil => rfl
      | cons p t => rw [hsec] at hnil; cases hnil
    have := renderSections_flatMap_perm events
    rw [hsec] at this
    simp only [List.flatMap_nil] at this
    exact hne this.nil_eq.symm
  constructor
  · intro habsent
    have hload0 : loadCollapsedMap st runId = [] := by
      unfold loadCollapsedMap
      rw [habsent]
    obtain ⟨m, hm⟩ : ∃ m, ((renderSections events).map Prod.fst).getLast? = some m := by
      cases hk : ((renderSections events).map Prod.fst).getLast? with
      | none => exact absurd (List.getLast?_eq_none_iff.mp hk) hkeys_ne
      | some m => exact ⟨m, rfl⟩
    have hKempty : ((renderSections events).map Prod.fst).isEmpty = false := by
      cases hk : (renderSections events).map Prod.fst with
      | nil => exact absurd hk hkeys_ne
      | cons a t => rfl
    refine ⟨m, ?_, ?_, ?_⟩
    · unfold renderTimelineState
      rw [hempty]
      simp only [habsent, hload0, hKempty, hm, Option.getD_some, Option.isSome_none,
        Bool.not_false, Bool.not_true, Bool.and_self, reduceIte]
      exact load_save_roundtrip st runId [JsNum.int m] (by simp) (by simp)
    · have hmk : m ∈ (renderSections events).map Prod.fst := mem_of_getLast?_eq (by rw [hm]; rfl)
      obtain ⟨p, hp, hpm⟩ := List.mem_map.mp hmk
      obtain ⟨hne', heps, _⟩ := (renderSections_good events).2 p hp
      obtain ⟨e, he⟩ := List.exists_mem_of_ne_nil p.2 hne'
      refine ⟨e, ?_, by rw [heps e he, hpm]⟩
      exact (renderSections_flatMap_perm events).mem_iff.mp (List.mem_flatMap.mpr ⟨p, hp, he⟩)
    · intro e he
      exact chain'_lt_le_getLast (renderSections_good events).1 hm (epOf e)
        (renderSections_keys_cover events e he)
  · intro c hc
    unfold renderTimelineState
    rw [hempty]
    simp only [hc, Option.isSome_some, Bool.not_true, Bool.false_and, reduceIte]
    simp

/-- Concrete instance of the C2 theorem: one episode-3 event rendered
against empty storage seeds the stored set with episode 3. -/
theorem render_seeds_default_collapse_witness :
    ∃ m : Int,
      loadCollapsedMap
        (renderTimelineState [({ episode := some 3 } : Event)] "run-02" (fun _ => none)).1
        "run-02" = [JsNum.int m]
      ∧ (∃ e ∈ [({ episode := some 3 } : Event)], epOf e = m)
      ∧ (∀ e ∈ [({ episode := some 3 } : Event)], epOf e ≤ m) :=
  (render_seeds_default_collapse [({ episode := some 3 } : Event)] "run-02" (fun _ => none)
    (List.cons_ne_nil _ _)).1 rfl

/-! ## C10: `setAllCollapsed` modifies exactly the rendered episodes -/

theorem setAll_fold_snd (runId : String) (collapsed : Bool) :
    ∀ (doms : List (Int × Bool)) (u : Ui) (m : JsSet),
      (doms.foldl (setAllStep runId collapsed) (u, m)).2 =
        doms.foldl (setAllSetStep collapsed) m
  | [], _, _ => rfl
  | sec :: rest, u, m =>
    setAll_fold_snd runId collapsed rest _ _

theorem mem_foldl_setStep_true (x : JsNum) :
    ∀ (doms : List (Int × Bool)) (m : JsSet),
      (x ∈ doms.foldl (setAllSetStep true) m ↔ x ∈ m ∨ ∃ p ∈ doms, JsNum.int p.1 = x)
  | [], m => by simp
  | sec :: rest, m => by
    rw [List.foldl_cons, mem_foldl_setStep_true x rest _]
    unfold setAllSetStep
    rw [if_pos rfl, mem_jsSetAdd]
    constructor
    · rintro ((h | h) | ⟨p, hp, hpx⟩)
      · exact Or.inl h
      · exact Or.inr ⟨sec, List.mem_cons_self _ _, h.symm⟩
      · exact Or.inr ⟨p, List.mem_cons_of_mem _ hp, hpx⟩
    · rintro (h | ⟨p, hp, hpx⟩)
      · exact Or.inl (Or.inl h)
      · rcases List.mem_cons.mp hp with hp' | hp'
        · exact Or.inl (Or.inr (hp' ▸ hpx.symm))
        · exact Or.inr ⟨p, hp', hpx⟩

theorem mem_foldl_setStep_false (x : JsNum) :
    ∀ (doms : List (Int × Bool)) (m : JsSet),
      (x ∈ doms.foldl (setAllSetStep false) m ↔ x ∈ m ∧ ¬ ∃ p ∈ doms, JsNum.int p.1 = x)
  | [], m => by simp
  | sec :: rest, m => by
    rw [List.foldl_cons, mem_foldl_setStep_false x rest _]
    unfold setAllSetStep
    rw [if_neg (by decide : ¬ ((false : Bool) = true)), mem_jsSetDelete]
    constructor
    · rintro ⟨⟨hm, hne⟩, hnex⟩
      refine ⟨hm, ?_⟩
      rintro ⟨p, hp, hpx⟩
      rcases List.mem_cons.mp hp with hp' | hp'
      · exact hne (hp' ▸ hpx.symm)
      · exact hnex ⟨p, hp', hpx⟩
    · rintro ⟨hm, hnex⟩
      refine ⟨⟨hm, ?_⟩, ?_⟩
      · intro hx
        exact hnex ⟨sec, List.mem_cons_self _ _, hx.symm⟩
      · rintro ⟨p, hp, hpx⟩
        exact hnex ⟨p, List.mem_cons_of_mem _ hp, hpx⟩

theorem foldl_setStep_nodup (collapsed : Bool) :
    ∀ (doms : List (Int × Bool)) {m : JsSet}, m.Nodup →
      (doms.foldl (setAllSetStep collapsed) m).Nodup
  | [], _, hm => hm
  | sec :: rest, m, hm => by
    rw [List.foldl_cons]
    refine foldl_setStep_nodup collapsed rest ?_
    unfold setAllSetStep
    split
    · exact jsSetAdd_nodup hm _
    · exact jsSetDelete_nodup hm _

theorem foldl_setStep_nanFree (collapsed : Bool) :
    ∀ (doms : List (Int × Bool)) {m : JsSet}, JsNum.nan ∉ m →
      JsNum.nan ∉ doms.foldl (setAllSetStep collapsed) m
  | [], _, hm => hm
  | sec :: rest, m, hm => by
    rw [List.foldl_cons]
    refine foldl_setStep_nanFree collapsed rest ?_
    unfold setAllSetStep
    split
    · exact jsSetAdd_int_nanFree hm _
    · exact jsSetDelete_nanFree hm _

theorem toggle_store_frame (ui : Ui) (runId : String) (ep : Int) (expand : Option Bool)
    (k : String) (hk : k ≠ collapsedKey runId) :
    (toggleEpisodeSection ui runId ep expand).store k = ui.store k := by
  unfold toggleEpisodeSection
  cases ui.dom.find? (fun p => p.1 == ep) with
  | none => rfl
  | some sec =>
    show saveCollapsedMap ui.store runId _ k = ui.store k
    unfold saveCollapsedMap
    rw [if_neg hk]

theorem setAll_fold_store_frame (runId : String) (collapsed : Bool) (k : String)
    (hk : k ≠ collapsedKey runId) :
    ∀ (doms : List (Int × Bool)) (u : Ui) (m : JsSet),
      ((doms.foldl (setAllStep runId collapsed) (u, m)).1).store k = u.store k
  | [], _, _ => rfl
  | sec :: rest, u, m => by
    rw [List.foldl_cons]
    rw [setAll_fold_store_frame runId collapsed k hk rest _ _]
    exact toggle_store_frame u runId sec.1 (some (!collapsed)) k hk

/-- **C10**: `setAllCollapsed` changes the persisted collapse set's
membership exactly on the rendered episode numbers — adding all of them
when collapsing, removing all of them when expanding — leaves every other
number's membership as it was, and touches no other storage key. -/
theorem setAllCollapsed_exact_frame (ui : Ui) (runId : String) (collapsed : Bool) (x : JsNum)
    (hnan : JsNum.nan ∉ loadCollapsedMap ui.store runId) :
    (collapsed = true →
      (x ∈ loadCollapsedMap (setAllCollapsed ui runId collapsed).store runId ↔
        (x ∈ loadCollapsedMap ui.store runId ∨ ∃ p ∈ ui.dom, JsNum.int p.1 = x)))
    ∧ (collapsed = false →
      (x ∈ loadCollapsedMap (setAllCollapsed ui runId collapsed).store runId ↔
        (x ∈ loadCollapsedMap ui.store runId ∧ ¬ ∃ p ∈ ui.dom, JsNum.int p.1 = x)))
    ∧ (∀ k, k ≠ collapsedKey runId →
        (setAllCollapsed ui runId collapsed).store k = ui.store k) := by
  have hsnd :
      (ui.dom.foldl (setAllStep runId collapsed) (ui, loadCollapsedMap ui.store runId)).2 =
        ui.dom.foldl (setAllSetStep collapsed) (loadCollapsedMap ui.store runId) :=
    setAll_fold_snd runId collapsed ui.dom ui _
  have hload :
      loadCollapsedMap (setAllCollapsed ui runId collapsed).store runId =
        ui.dom.foldl (setAllSetStep collapsed) (loadCollapsedMap ui.store runId) := by
    show loadCollapsedMap
        (saveCollapsedMap
          ((ui.dom.foldl (setAllStep runId collapsed)
              (ui, loadCollapsedMap ui.store runId)).1).store
          runId
          (ui.dom.foldl (setAllStep runId collapsed)
              (ui, loadCollapsedMap ui.store runId)).2)
        runId = _
    rw [hsnd]
    exact load_save_roundtrip _ _ _
      (foldl_setStep_nodup collapsed ui.dom (loadCollapsedMap_nodup ui.store runId))
      (foldl_setStep_nanFree collapsed ui.dom hnan)
  refine ⟨?_, ?_, ?_⟩
  · intro hc
    subst hc
    rw [hload]
    exact mem_foldl_setStep_true x ui.dom _
  · intro hc
    subst hc
    rw [hload]
    exact mem_foldl_setStep_false x ui.dom _
  · intro k hk
    unfold setAllCollapsed
    show saveCollapsedMap _ runId _ k = ui.store k
    unfold saveCollapsedMap
    rw [if_neg hk]
    exact setAll_fold_store_frame runId collapsed k hk ui.dom ui _

/-- Concrete instance of the C10 theorem: collapsing all of a two-section
timeline whose store already holds `[7]` yields exactly `{7, 1, 2}`;
membership of episode `7` (not rendered) is untouched. -/
theorem setAllCollapsed_exact_frame_witness :
    JsNum.int 7 ∈
      loadCollapsedMap
        (setAllCollapsed
          ⟨[(1, true), (2, true)],
           fun k => if k = collapsedKey "run-02" then some (Cell.ok (Json.arr [Json.num 7]))
                    else none⟩
          "run-02" true).store
        "run-02"
    ↔ (JsNum.int 7 ∈
        loadCollapsedMap
          (fun k => if k = collapsedKey "run-02" then some (Cell.ok (Json.arr [Json.num 7]))
                    else none)
          "run-02"
       ∨ ∃ p ∈ [((1 : Int), true), (2, true)], JsNum.int p.1 = JsNum.int 7) :=
  (setAllCollapsed_exact_frame
    ⟨[(1, true), (2, true)],
     fun k => if k = collapsedKey "run-02" then some (Cell.ok (Json.arr [Json.num 7]))
              else none⟩
    "run-02" true (JsNum.int 7) (by decide)).1 rfl

/-! ## C4: permalink resolution -/

theorem splitAtFirst_append (c : Char) :
    ∀ (l₁ : List Char), c ∉ l₁ → ∀ l₂, splitAtFirst c (l₁ ++ c :: l₂) = some (l₁, l₂)
  | [], _, l₂ => by simp [splitAtFirst]
  | x :: xs, h, l₂ => by
    have hx : x ≠ c := fun hxc => h (hxc ▸ List.mem_cons_self _ _)
    have hxs : c ∉ xs := fun hm => h (List.mem_cons_of_mem _ hm)
    show (if x = c then some ([], xs ++ c :: l₂)
          else (splitAtFirst c (xs ++ c :: l₂)).map (fun p => (x :: p.1, p.2))) =
        some (x :: xs, l₂)
    rw [if_neg hx, splitAtFirst_append c xs hxs l₂]
    rfl

theorem stripPre_append : ∀ (p l : List Char), stripPre p (p ++ l) = some l
  | [], _ => rfl
  | c :: cs, l => by
    simp only [List.cons_append, stripPre, if_pos rfl]
    exact stripPre_append cs l

/-- **C4**: permalink resolution splits the hash at its first `?` (the
part before it is the anchor), and an anchor matching `episode-<digits>`
resolves that episode: a merged `spoiler` parameter equal to exactly `"0"`
forces the section collapsed (and its episode into the persisted set),
while any other value or its absence forces it expanded (and its episode
out of the persisted set). -/
theorem permalink_resolution (loc : Location) (ui : Ui) (runId : String)
    (anchor : String) (ps : List (String × String)) (ep : Int) (sec : Int × Bool)
    (hparse : parseHashAnchorAndParams loc = (some anchor, ps))
    (hanch : parseEpisodeAnchor anchor = some ep)
    (hfind : ui.dom.find? (fun p => p.1 == ep) = some sec)
    (hnan : JsNum.nan ∉ loadCollapsedMap ui.store runId) :
    (∀ front back : String, ('?' ∉ front.data) → front ≠ "" →
        loc.hash = "#" ++ front ++ "?" ++ back → anchor = front)
    ∧ (paramsGet ps "spoiler" = some "0" →
        (handlePermalinkOnLoad loc ui runId).dom.find? (fun p => p.1 == ep) = some (ep, false)
        ∧ JsNum.int ep ∈ loadCollapsedMap (handlePermalinkOnLoad loc ui runId).store runId)
    ∧ (paramsGet ps "spoiler" ≠ some "0" →
        (handlePermalinkOnLoad loc ui runId).dom.find? (fun p => p.1 == ep) = some (ep, true)
        ∧ JsNum.int ep ∉ loadCollapsedMap (handlePermalinkOnLoad loc ui runId).store runId) := by
  have hrun : ∀ b : Bool,
      handlePermalinkOnLoad loc ui runId =
        toggleEpisodeSection ui runId ep (some b) →
      (handlePermalinkOnLoad loc ui runId).dom.find? (fun p => p.1 == ep) = some (ep, b)
      ∧ loadCollapsedMap (handlePermalinkOnLoad loc ui runId).store runId =
          toggledSet ui.store runId ep b := by
    intro b hb
    rw [hb]
    constructor
    · rw [toggle_unfold ui runId ep (some b) sec hfind]
      exact updateFirst_find? ui.dom ep b ⟨sec, hfind⟩
    · have := load_after_toggle ui runId ep (some b) sec hfind hnan
      simpa using this
  have hmain : handlePermalinkOnLoad loc ui runId =
      toggleEpisodeSection ui runId ep
        (some (!(paramsGet ps "spoiler" == some "0"))) := by
    unfold handlePermalinkOnLoad
    rw [hparse]
    show (match parseEpisodeAnchor anchor with
      | some ep =>
        toggleEpisodeSection ui runId ep
          (some (!(paramsGet ps "spoiler" == some "0")))
      | none => permalinkQueryFallback loc ui runId) = _
    rw [hanch]
  refine ⟨?_, ?_, ?_⟩
  · intro front back hfq hfne hhash
    have hdata : loc.hash.data = '#' :: (front.data ++ '?' :: back.data) := by
      rw [hhash]
      simp [String.data_append]
    have hdrop : dropHashMark loc.hash = String.mk (front.data ++ '?' :: back.data) := by
      unfold dropHashMark
      rw [hdata]
      rfl
    have hraw_ne : String.mk (front.data ++ '?' :: back.data) ≠ "" := by
      intro h
      have : (String.mk (front.data ++ '?' :: back.data)).data = [] := by rw [h]
      simp at this
    have hsplit : splitAtFirst '?' (front.data ++ '?' :: back.data) =
        some (front.data, back.data) := splitAtFirst_append '?' front.data hfq back.data
    have : parseHashAnchorAndParams loc =
        (some (String.mk front.data),
         (parseQueryString (String.mk back.data)).foldl
           (fun ps (p : String × String) => paramsSet ps p.1 p.2) loc.search) := by
      unfold parseHashAnchorAndParams
      rw [hdrop, if_neg hraw_ne]
      show (match splitAtFirst '?' (String.mk (front.data ++ '?' :: back.data)).data with
        | none => (some (String.mk (front.data ++ '?' :: back.data)), loc.search)
        | some (f, b) =>
          (some (String.mk f),
           (parseQueryString (String.mk b)).foldl
             (fun ps (p : String × String) => paramsSet ps p.1 p.2) loc.search)) = _
      rw [show (String.mk (front.data ++ '?' :: back.data)).data =
            front.data ++ '?' :: back.data from rfl, hsplit]
    rw [hparse] at this
    have ha := (Prod.mk.injEq _ _ _ _).mp this |>.1
    have : anchor = String.mk front.data := Option.some.inj ha
    rw [this]
  · intro hsp
    have hbeq : (paramsGet ps "spoiler" == some "0") = true := by
      rw [hsp]
      exact beq_self_eq_true _
    rw [hbeq] at hmain
    obtain ⟨h1, h2⟩ := hrun false hmain
    refine ⟨h1, ?_⟩
    rw [h2]
    unfold toggledSet
    rw [if_neg (by decide : ¬ ((false : Bool) = true))]
    exact mem_jsSetAdd.mpr (Or.inr rfl)
  · intro hsp
    have hbeq : (paramsGet ps "spoiler" == some "0") = false := by
      exact beq_eq_false_iff_ne.mpr hsp
    rw [hbeq] at hmain
    obtain ⟨h1, h2⟩ := hrun true hmain
    refine ⟨h1, ?_⟩
    rw [h2]
    unfold toggledSet
    rw [if_pos rfl]
    intro hm
    exact (mem_jsSetDelete.mp hm).2 rfl

/-- Concrete instance of the C4 theorem: the stored permalink
`#episode-5?spoiler=0` leaves episode 5 collapsed and persisted as
collapsed. -/
theorem permalink_resolution_witness :
    (handlePermalinkOnLoad ⟨[], "#episode-5?spoiler=0"⟩
        ⟨[(5, true)], fun _ => none⟩ "run-02").dom.find?
      (fun p => p.1 == (5 : Int)) = some (5, false)
    ∧ JsNum.int 5 ∈
        loadCollapsedMap
          (handlePermalinkOnLoad ⟨[], "#episode-5?spoiler=0"⟩
            ⟨[(5, true)], fun _ => none⟩ "run-02").store
          "run-02" :=
  (permalink_resolution ⟨[], "#episode-5?spoiler=0"⟩ ⟨[(5, true)], fun _ => none⟩ "run-02"
    "episode-5" [("spoiler", "0")] 5 (5, true)
    (by decide) (by decide) (by decide) (by decide)).2.1 rfl

/-! ## Event cards and the run-end banner (`createEventElement`,
`renderTimeline` lines 664-681) -/

/-- `(ev.type || "").toLowerCase()`. -/
def evTypeLower (ev : Event) : String :=
  jsToLowerCase (match ev.type with | none => "" | some t => t)

/-- The `isFailed` flag check of `createEventElement`. -/
def eventIsFailed (ev : Event) : Bool :=
  (ev.failed == some true)
  || (match ev.flags with | some f => f.failed == some true | none => false)
  || (evTypeLower ev == "failed")
  || (ev.failedEncounter == some true)
  || (match ev.pokemon with | some p => p.failed == some true | none => false)

/-- The `isIllegal` flag check of `createEventElement`. -/
def eventIsIllegal (ev : Event) : Bool :=
  (ev.illegal == some true)
  || (match ev.flags with | some f => f.illegal == some true | none => false)
  || (evTypeLower ev == "illegal")
  || (ev.illegalEncounter == some true)
  || (match ev.pokemon with | some p => p.illegal == some true | none => false)

/-- `ev.pokemon?.level ?? ev.level`. -/
def eventLevel (ev : Event) : Option Int :=
  match ev.pokemon with
  | some p => match p.level with | some l => some l | none => ev.level
  | none => ev.level

/-- The level when it is truthy (a level of `0` is falsy in JavaScript),
rendered as a string. -/
def eventLevelTruthy (ev : Event) : Option String :=
  match eventLevel ev with
  | some n => if n = 0 then none else some (toString n)
  | none => none

/-- `capitalize(s)`. -/
def capitalize (s : String) : String :=
  match s.data with
  | [] => ""
  | c :: cs => String.mk (c.toUpper :: cs)

/-- Truthiness of a JSON value held in a field like `ev.special`. -/
def jsTruthyJson : Json → Bool
  | Json.null => false
  | Json.bool b => b
  | Json.num n => !(n == 0)
  | Json.str s => !(s == "")
  | Json.arr _ => true

/-- `!ev.special` is false, i.e. the special field is truthy. -/
def evSpecialTruthy (ev : Event) : Bool :=
  match ev.special with
  | none => false
  | some j => jsTruthyJson j

/-- The header text `createEventElement` writes, by lower-cased type. -/
def headerTextOf (ev : Event) : String :=
  let t := evTypeLower ev
  if t = "caught" then
    if eventIsFailed ev then
      match eventLevelTruthy ev with
      | some s => "Failed to catch (Level " ++ s ++ ")"
      | none => "Failed to catch"
    else
      match eventLevelTruthy ev with
      | some s => "Caught at Level " ++ s
      | none => "Caught"
  else if t = "fainted" then "Fainted"
  else if t = "evolved" ∨ t = "evolution" then
    match eventLevelTruthy ev with
    | some s => "Evolved at Level " ++ s
    | none => "Evolved"
  else if t = "badge" then "Badge earned"
  else
    match ev.type with
    | some ty => if ty = "" then "Event" else capitalize ty
    | none => "Event"

/-- The wrapper element's class list: `event`, the side, `type-<t>`,
`fainted`, and the failed/illegal flag (failed wins). -/
def classNamesOf (ev : Event) : List String :=
  let t := evTypeLower ev
  ["event", if ev.side == some "right" then "right" else "left"]
  ++ (if t ≠ "" then ["type-" ++ t] else [])
  ++ (if t = "fainted" then ["fainted"] else [])
  ++ (if eventIsFailed ev then ["failed"]
      else if eventIsIllegal ev then ["illegal"] else [])

/-- The ribbon `createEventElement` pins on the header when the event has
no special label of its own. -/
def ribbonOf (ev : Event) : Option String :=
  if eventIsFailed ev && !(evSpecialTruthy ev) then some "Failed Encounter"
  else if eventIsIllegal ev && !(evSpecialTruthy ev) then some "Illegal Encounter"
  else none

/-- The standard event card `createEventElement` builds: its class list,
header text and ribbon.  The card body (sprites and text lines) carries
no state any claim mentions and is omitted. -/
structure EventCard where
  classNames : List String
  headerText : String
  ribbon : Option String
deriving DecidableEq, Repr

/-- `createEventElement(ev)` of `src/script.js`. -/
def createEventElement (ev : Event) : EventCard :=
  { classNames := classNamesOf ev
    headerText := headerTextOf ev
    ribbon := ribbonOf ev }

/-- The run-end type test of `renderTimeline`:
`["run_end","runended","run_ended","end"].includes(evType)`. -/
def isRunEndType (ev : Event) : Bool :=
  ["run_end", "runended", "run_ended", "end"].contains (evTypeLower ev)

/-- The text of the full-width "Run Ended" banner. -/
def runEndBannerText (ev : Event) : String :=
  let parts :=
    (match ev.episode with
     | some n => ["Episode " ++ toString n]
     | none => [])
    ++ (match ev.date with
        | some d => if d = "" then [] else [d]
        | none => [])
  let note := match ev.notes with
    | some s => if s = "" then "" else " — " ++ s
    | none => ""
  "Run Ended" ++ (if parts ≠ [] then " — " ++ String.intercalate " • " parts else "") ++ note

/-- A node in an episode's contents: a standard event card or the
full-width run-end banner. -/
inductive TimelineNode where
  | card : EventCard → TimelineNode
  | runEndBanner : String → TimelineNode
deriving DecidableEq, Repr

/-- The per-event branch of the contents loop of `renderTimeline`. -/
def nodeForEvent (ev : Event) : TimelineNode :=
  if isRunEndType ev then TimelineNode.runEndBanner (runEndBannerText ev)
  else TimelineNode.card (createEventElement ev)

/-- The contents `renderTimeline` appends for one episode's events. -/
def sectionNodes (g : List Event) : List TimelineNode :=
  g.map nodeForEvent

def TimelineNode.isCard : TimelineNode → Bool
  | TimelineNode.card _ => true
  | TimelineNode.runEndBanner _ => false

/-- How many ordinary event cards an episode's contents hold. -/
def ordinaryEventCount (g : List Event) : Nat :=
  (sectionNodes g).countP TimelineNode.isCard

/-- **C5**: in every rendered episode section, an event whose lower-cased
type is a run-end variant is rendered as the full-width "Run Ended"
banner, never as a `createEventElement` card, and the section's ordinary
event count excludes exactly the run-end events. -/
theorem runEnd_renders_banner (events : List Event) :
    ∀ p ∈ renderSections events,
      (∀ ev ∈ p.2, isRunEndType ev = true →
        nodeForEvent ev = TimelineNode.runEndBanner (runEndBannerText ev)
        ∧ ∀ c : EventCard, nodeForEvent ev ≠ TimelineNode.card c)
      ∧ ordinaryEventCount p.2 = (p.2.filter (fun e => !(isRunEndType e))).length := by
  intro p _
  constructor
  · intro ev _ hre
    constructor
    · unfold nodeForEvent
      rw [if_pos hre]
    · intro c
      unfold nodeForEvent
      rw [if_pos hre]
      intro h
      cases h
  · unfold ordinaryEventCount sectionNodes
    rw [List.countP_map, ← List.countP_eq_length_filter]
    apply List.countP_congr
    intro e _
    unfold Function.comp nodeForEvent
    cases hre : isRunEndType e with
    | true => simp [TimelineNode.isCard]
    | false => simp [TimelineNode.isCard]

/-- Concrete instance of the C5 theorem: a `run_end` event in a section
with one caught event gives an ordinary event count of 1. -/
theorem runEnd_renders_banner_witness :
    (∀ ev ∈ (({ episode := some 1, type := some "run_end" } : Event) ::
        [({ episode := some 1, type := some "caught" } : Event)]),
      isRunEndType ev = true →
        nodeForEvent ev = TimelineNode.runEndBanner (runEndBannerText ev)
        ∧ ∀ c : EventCard, nodeForEvent ev ≠ TimelineNode.card c)
    ∧ ordinaryEventCount
        (({ episode := some 1, type := some "run_end" } : Event) ::
          [({ episode := some 1, type := some "caught" } : Event)]) =
      ((({ episode := some 1, type := some "run_end" } : Event) ::
          [({ episode := some 1, type := some "caught" } : Event)]).filter
        (fun e => !(isRunEndType e))).length := by
  have h := runEnd_renders_banner
    [({ episode := some 1, type := some "run_end" } : Event),
     ({ episode := some 1, type := some "caught" } : Event)]
  have hp : ((1 : Int),
      [({ episode := some 1, type := some "run_end" } : Event),
       ({ episode := some 1, type := some "caught" } : Event)]) ∈
      renderSections
        [({ episode := some 1, type := some "run_end" } : Event),
         ({ episode := some 1, type := some "caught" } : Event)] :=
    List.mem_cons_self _ _
  exact h _ hp

/-! ## C6: filename normalization -/

/-- **C6**: `speciesToFilename` lower-cases, trims, strips apostrophes,
hyphenates whitespace runs and keeps only `[a-z0-9-]` (so every character
of any produced filename is in that class, and `"Mr. Mime"` maps to
`"mr-mime"`); absent or empty input, and any input whose normalized form
is empty, produce no sprite or badge URL. -/
theorem speciesToFilename_normalizes :
    (∀ s out : String, speciesToFilename (some s) = some out →
      ∀ c ∈ out.data, (('a' ≤ c ∧ c ≤ 'z') ∨ ('0' ≤ c ∧ c ≤ '9') ∨ c = '-'))
    ∧ speciesToFilename (some "Mr. Mime") = some "mr-mime"
    ∧ speciesToFilename none = none
    ∧ spriteUrlFor none = none
    ∧ badgeUrlFor none = none
    ∧ spriteUrlFor (some "") = none
    ∧ badgeUrlFor (some "") = none
    ∧ (∀ s : String, speciesToFilename (some s) = some "" →
        spriteUrlFor (some s) = none ∧ badgeUrlFor (some s) = none) := by
  refine ⟨?_, by decide, rfl, rfl, rfl, rfl, rfl, ?_⟩
  · intro s out hout c hc
    have hout' : (if s = "" then none
        else some (String.mk (keepAllowed (collapseWsToHyphen false
          (stripApostrophes (jsTrim (jsToLowerCase s)).data))))) = some out := hout
    by_cases hs : s = ""
    · rw [if_pos hs] at hout'
      cases hout'
    · rw [if_neg hs] at hout'
      have hdata : out.data =
          keepAllowed (collapseWsToHyphen false
            (stripApostrophes (jsTrim (jsToLowerCase s)).data)) := by
        rw [← Option.some.inj hout']
      rw [hdata] at hc
      have := (List.mem_filter.mp hc).2
      simpa [Char.le_def, or_assoc] using this
  · intro s hempty
    constructor
    · unfold spriteUrlFor
      rw [hempty]
      show (if ("" : String) = "" then none
        else some ("sprites/" ++ "" ++ ".png")) = none
      rw [if_pos rfl]
    · unfold badgeUrlFor
      rw [hempty]
      show (if ("" : String) = "" then none
        else some ("sprites/badges/" ++ "" ++ ".png")) = none
      rw [if_pos rfl]

/-- Concrete instance of the C6 theorem: `"Mr. Mime"` normalizes to
`"mr-mime"`, and an all-punctuation name produces no URL. -/
theorem speciesToFilename_normalizes_witness :
    speciesToFilename (some "Mr. Mime") = some "mr-mime"
    ∧ spriteUrlFor (some "!!!") = none ∧ badgeUrlFor (some "!!!") = none :=
  ⟨speciesToFilename_normalizes.2.1,
   (speciesToFilename_normalizes.2.2.2.2.2.2.2 "!!!" (by decide)).1,
   (speciesToFilename_normalizes.2.2.2.2.2.2.2 "!!!" (by decide)).2⟩

/-! ## C7: load tolerates malformed storage -/

/-- **C7**: `loadCollapsedMap` is total and always produces a
duplicate-free set; an absent key, an unparseable stored string, and a
stored JSON value that is not an array all yield the empty set. -/
theorem loadCollapsedMap_tolerates_malformed (st : Store) (runId : String) :
    (st (collapsedKey runId) = none → loadCollapsedMap st runId = [])
    ∧ (st (collapsedKey runId) = some Cell.bad → loadCollapsedMap st runId = [])
    ∧ (∀ j : Json, st (collapsedKey runId) = some (Cell.ok j) →
        (∀ xs : List Json, j ≠ Json.arr xs) → loadCollapsedMap st runId = [])
    ∧ (loadCollapsedMap st runId).Nodup := by
  refine ⟨?_, ?_, ?_, loadCollapsedMap_nodup st runId⟩
  · intro h
    unfold loadCollapsedMap
    rw [h]
  · intro h
    unfold loadCollapsedMap
    rw [h]
  · intro j h hna
    unfold loadCollapsedMap
    rw [h]
    cases j with
    | arr xs => exact absurd rfl (hna xs)
    | null => rfl
    | bool b => rfl
    | num n => rfl
    | str s => rfl

/-- Concrete instance of the C7 theorem: a store whose every cell is an
unparseable string loads as the empty set. -/
theorem loadCollapsedMap_tolerates_malformed_witness :
    loadCollapsedMap (fun _ => some Cell.bad) "run-02" = [] :=
  (loadCollapsedMap_tolerates_malformed (fun _ => some Cell.bad) "run-02").2.1 rfl

/-! ## C9: save/load round trip -/

/-- **C9**: saving a (duplicate-free) set of numbers and loading it back
is the identity — the JSON array serialization with `Number` re-coercion
on load preserves sets of numbers exactly. -/
theorem save_then_load_identity (st : Store) (runId : String) (s : JsSet)
    (hnodup : s.Nodup) (hnum : ∀ x ∈ s, x ≠ JsNum.nan) :
    loadCollapsedMap (saveCollapsedMap st runId s) runId = s :=
  load_save_roundtrip st runId s hnodup (fun h => hnum _ h rfl)

/-- Concrete instance of the C9 theorem: `{3, 5}` survives the round
trip. -/
theorem save_then_load_identity_witness :
    loadCollapsedMap (saveCollapsedMap (fun _ => none) "run-02" [JsNum.int 3, JsNum.int 5])
      "run-02" = [JsNum.int 3, JsNum.int 5] :=
  save_then_load_identity (fun _ => none) "run-02" [JsNum.int 3, JsNum.int 5]
    (by decide) (by decide)

/-! ## C8: initial run selection (`init`, line 882) -/

/-- One entry of the loaded run index. -/
structure RunEntry where
  id : String
  title : Option String := none
deriving DecidableEq, Repr

/-- The configured default run id (`DEFAULT_RUN_ID`). -/
def DEFAULT_RUN_ID : String := "run-02"

/-- JavaScript `||` on nullable strings: the empty string is falsy. -/
def jsOr (a b : Option String) : Option String :=
  match a with
  | some s => if s = "" then b else some s
  | none => b

/-- The initial-run choice of `init()`:
`(runParam && runs.find(r => r.id === runParam)?.id) || DEFAULT_RUN_ID
 || runs[0]?.id || DEFAULT_RUN_ID`. -/
def initialRunChoice (runParam : Option String) (runs : List RunEntry) : String :=
  let matched : Option String :=
    match runParam with
    | none => none
    | some p => if p = "" then none else (runs.find? (fun r => r.id == p)).map RunEntry.id
  (jsOr (jsOr (jsOr matched (some DEFAULT_RUN_ID)) ((runs.head?).map RunEntry.id))
    (some DEFAULT_RUN_ID)).getD ""

theorem jsOr_some_ne {s : String} (h : s ≠ "") (b : Option String) :
    jsOr (some s) b = some s := by
  show (if s = "" then b else some s) = some s
  rw [if_neg h]

/-- Counterexample to C8 as stated: with the index `[{id: ""}]` and the
query parameter `run` present with the empty value — which matches that
run's id — the chosen run is the configured default `"run-02"`, not the
matching run, because the empty parameter is falsy in the `&&` guard. -/
theorem initialRun_empty_param_counterexample :
    (∃ r ∈ [({ id := "" } : RunEntry)], r.id = "")
    ∧ initialRunChoice (some "") [({ id := "" } : RunEntry)] = "run-02"
    ∧ ("run-02" : String) ≠ "" :=
  ⟨⟨{ id := "" }, List.mem_cons_self _ _, rfl⟩, by decide, by decide⟩

/-- **C8 (amended)**: the initially displayed run is the `run` query
parameter when it is non-empty and matches the id of a run in the loaded
index; otherwise it is the configured default run id (the first-run
fallback of the `||` chain is unreachable because a non-empty default is
always configured). -/
theorem initialRun_precedence (p : String) (runs : List RunEntry) :
    (p ≠ "" → ∀ r : RunEntry, runs.find? (fun r => r.id == p) = some r →
        initialRunChoice (some p) runs = p)
    ∧ ((p = "" ∨ runs.find? (fun r => r.id == p) = none) →
        initialRunChoice (some p) runs = DEFAULT_RUN_ID)
    ∧ initialRunChoice none runs = DEFAULT_RUN_ID := by
  have hD : DEFAULT_RUN_ID ≠ "" := by decide
  refine ⟨?_, ?_, ?_⟩
  · intro hp r hr
    have hid : r.id = p := by
      have := List.find?_some hr
      simpa using this
    show (jsOr (jsOr (jsOr
        (if p = "" then none else (runs.find? (fun r => r.id == p)).map RunEntry.id)
        (some DEFAULT_RUN_ID)) ((runs.head?).map RunEntry.id))
      (some DEFAULT_RUN_ID)).getD "" = p
    rw [if_neg hp, hr]
    show (jsOr (jsOr (jsOr (some r.id) (some DEFAULT_RUN_ID)) ((runs.head?).map RunEntry.id))
      (some DEFAULT_RUN_ID)).getD "" = p
    rw [hid, jsOr_some_ne hp, jsOr_some_ne hp, jsOr_some_ne hp]
    rfl
  · intro hcase
    have hmatched :
        (if p = "" then none
         else (runs.find? (fun r => r.id == p)).map RunEntry.id) = (none : Option String) := by
      rcases hcase with rfl | hfind
      · rw [if_pos rfl]
      · by_cases hp : p = ""
        · rw [if_pos hp]
        · rw [if_neg hp, hfind]
          rfl
    show (jsOr (jsOr (jsOr
        (if p = "" then none else (runs.find? (fun r => r.id == p)).map RunEntry.id)
        (some DEFAULT_RUN_ID)) ((runs.head?).map RunEntry.id))
      (some DEFAULT_RUN_ID)).getD "" = DEFAULT_RUN_ID
    rw [show (if p = "" then none
          else (runs.find? (fun r => r.id == p)).map RunEntry.id) = (none : Option String)
        from hmatched]
    show (jsOr (jsOr (some DEFAULT_RUN_ID) ((runs.head?).map RunEntry.id))
      (some DEFAULT_RUN_ID)).getD "" = DEFAULT_RUN_ID
    rw [jsOr_some_ne hD, jsOr_some_ne hD]
    rfl
  · show (jsOr (jsOr (jsOr none (some DEFAULT_RUN_ID)) ((runs.head?).map RunEntry.id))
      (some DEFAULT_RUN_ID)).getD "" = DEFAULT_RUN_ID
    show (jsOr (jsOr (some DEFAULT_RUN_ID) ((runs.head?).map RunEntry.id))
      (some DEFAULT_RUN_ID)).getD "" = DEFAULT_RUN_ID
    rw [jsOr_some_ne hD, jsOr_some_ne hD]
    rfl

/-- Concrete instance of the amended C8 theorem: a matching non-empty
parameter wins; a non-matching one falls back to the default. -/
theorem initialRun_precedence_witness :
    initialRunChoice (some "run-07") [({ id := "run-07" } : RunEntry)] = "run-07"
    ∧ initialRunChoice (some "nope") [({ id := "run-07" } : RunEntry)] = DEFAULT_RUN_ID :=
  ⟨(initialRun_precedence "run-07" [({ id := "run-07" } : RunEntry)]).1 (by decide)
      { id := "run-07" } (by decide),
   (initialRun_precedence "nope" [({ id := "run-07" } : RunEntry)]).2.1 (Or.inr (by decide))⟩

end NuzTimeline
